import Mathlib

/-!
# Verification of the resilient data-access layer of the imdb-clone repository

Shallow embedding of the core data-access components:

* `CircuitBreaker`        — `src/apiOptimized.js` lines 76–113
* `RequestDeduplicator`   — `src/apiOptimized.js` lines 119–140
* `PrefetchManager`       — `src/apiOptimized.js` lines 202–238
* backoff delay sequence  — `src/apiOptimized.js` lines 244–272 (`retryWithBackoff`)
* `AdvancedCacheManager`  — `src/advancedCacheUtils.js` lines 9–121
* `TrendingCache`         — `src/TrendingMoviesModule.jsx` lines 15–39
* `searchMovies` / `clearAPICache` — `src/apiOptimized.js` lines 426–481 and 581–585

JavaScript `Date.now()` timestamps are modelled as `Int` passed explicitly;
`Map` objects are modelled as insertion-ordered association lists (insert
appends, overwrite updates in place); promises are modelled by splitting the
asynchronous control flow into the synchronous step that registers work and an
explicit settlement step, with the outcome of an awaited operation supplied as
an explicit `Except` parameter.
-/

namespace ImdbClone

/-! ## Circuit breaker (`src/apiOptimized.js` 76–113) -/

/-- The three circuit-breaker states (`this.state` string field). -/
inductive CBState where
  | CLOSED
  | OPEN
  | HALF_OPEN
deriving DecidableEq, Repr

/-- State of `class CircuitBreaker` (`src/apiOptimized.js` 76–113). -/
structure CircuitBreaker where
  failureCount : Nat
  threshold : Nat
  timeout : Int
  state : CBState
  nextAttempt : Int
deriving DecidableEq, Repr

/-- `new CircuitBreaker(threshold, timeout)` at time `now`
(`this.nextAttempt = Date.now()`). -/
def CircuitBreaker.init (threshold : Nat) (timeout now : Int) : CircuitBreaker :=
  { failureCount := 0, threshold := threshold, timeout := timeout
    state := .CLOSED, nextAttempt := now }

/-- `recordSuccess()`: reset the failure count and close the breaker. -/
def CircuitBreaker.recordSuccess (cb : CircuitBreaker) : CircuitBreaker :=
  { cb with failureCount := 0, state := .CLOSED }

/-- `recordFailure()` at time `now`: increment the count; on reaching the
threshold open the breaker and set `nextAttempt = now + timeout`. -/
def CircuitBreaker.recordFailure (cb : CircuitBreaker) (now : Int) : CircuitBreaker :=
  let fc := cb.failureCount + 1
  if fc ≥ cb.threshold then
    { cb with failureCount := fc, state := .OPEN, nextAttempt := now + cb.timeout }
  else
    { cb with failureCount := fc }

/-- `canAttempt()` at time `now`: returns the boolean answer and the
(possibly transitioned) breaker.  In the `OPEN` state, once `now` reaches
`nextAttempt` the call flips the state to `HALF_OPEN` and returns true; the
final line of the source is `return this.state === 'HALF_OPEN'`. -/
def CircuitBreaker.canAttempt (cb : CircuitBreaker) (now : Int) : Bool × CircuitBreaker :=
  if cb.state = .CLOSED then (true, cb)
  else if cb.state = .OPEN then
    if now ≥ cb.nextAttempt then (true, { cb with state := .HALF_OPEN })
    else (false, cb)
  else (decide (cb.state = .HALF_OPEN), cb)

/-- `getStatus()`. -/
def CircuitBreaker.getStatus (cb : CircuitBreaker) : CBState × Nat :=
  (cb.state, cb.failureCount)

/-! ## Request deduplicator (`src/apiOptimized.js` 119–140)

A pending promise is identified by a `Nat` id; `invoked` records, newest
first, the ids of the operations for which `requestFn()` was actually
invoked. -/

/-- State of `class RequestDeduplicator`: `this.pendingRequests` is a `Map`
from key to the in-flight promise. -/
structure RequestDeduplicator where
  pendingRequests : List (String × Nat)
  nextId : Nat
  invoked : List Nat
deriving DecidableEq, Repr

/-- `new RequestDeduplicator()`. -/
def RequestDeduplicator.empty : RequestDeduplicator :=
  { pendingRequests := [], nextId := 0, invoked := [] }

/-- The synchronous part of `deduplicate(key, requestFn)`: if a pending
promise exists for `key` it is returned as-is; otherwise `requestFn()` is
invoked, the fresh promise is registered under `key`, and returned. -/
def RequestDeduplicator.deduplicate (s : RequestDeduplicator) (key : String) :
    RequestDeduplicator × Nat :=
  match s.pendingRequests.lookup key with
  | some p => (s, p)
  | none =>
      let p := s.nextId
      ({ pendingRequests := s.pendingRequests ++ [(key, p)]
         nextId := p + 1
         invoked := p :: s.invoked }, p)

/-- The `.finally(() => this.pendingRequests.delete(key))` callback, run once
when the underlying promise settles; `success` records whether it fulfilled
or rejected and is ignored, exactly as `.finally` ignores the outcome. -/
def RequestDeduplicator.settle (s : RequestDeduplicator) (key : String) (_success : Bool) :
    RequestDeduplicator :=
  { s with pendingRequests := s.pendingRequests.filter (fun kv => kv.1 != key) }

/-- `clear()`. -/
def RequestDeduplicator.clear (s : RequestDeduplicator) : RequestDeduplicator :=
  { s with pendingRequests := [] }

/-! ## Byte-bounded LRU cache (`src/advancedCacheUtils.js` 9–121)

Cached payloads are identified with their JSON serialization (a `String`),
so `estimateSize` is `JSON.stringify(data).length * 2` applied to the payload
itself.  `this.cache` is a `Map`, modelled as an insertion-ordered
association list. -/

/-- `estimateSize(data)`: `JSON.stringify(data).length * 2`. -/
def estimateSize (data : String) : Nat :=
  data.length * 2

/-- One value of `this.cache`: `{data, timestamp, ttl, accessCount, lastAccess}`. -/
structure CacheEntry where
  data : String
  timestamp : Int
  ttl : Int
  accessCount : Nat
  lastAccess : Int
deriving DecidableEq, Repr

/-- `this.stats`. -/
structure CacheStats where
  hits : Nat
  misses : Nat
  evictions : Nat
deriving DecidableEq, Repr

/-- State of `class AdvancedCacheManager`.  `currentSize` is a JavaScript
number that is incremented and decremented, hence `Int`. -/
structure AdvancedCacheManager where
  cache : List (String × CacheEntry)
  maxSize : Nat
  currentSize : Int
  stats : CacheStats
deriving DecidableEq, Repr

/-- `new AdvancedCacheManager(maxSize)`. -/
def AdvancedCacheManager.empty (maxSize : Nat) : AdvancedCacheManager :=
  { cache := [], maxSize := maxSize, currentSize := 0
    stats := { hits := 0, misses := 0, evictions := 0 } }

/-- `Map.prototype.set`: overwrite in place when the key is present,
otherwise append (a `Map` preserves insertion order). -/
def mapSet (l : List (String × CacheEntry)) (key : String) (e : CacheEntry) :
    List (String × CacheEntry) :=
  if (l.lookup key).isSome then
    l.map (fun kv => if kv.1 == key then (key, e) else kv)
  else
    l ++ [(key, e)]

/-- The scan of `evictLRU()`: iterate over `this.cache.entries()` keeping the
entry whose `lastAccess` is strictly below the best so far (`lruTime` starts
at `Infinity`, so the first entry always becomes the initial candidate). -/
def lruScan (l : List (String × CacheEntry)) : Option (String × CacheEntry) :=
  l.foldl
    (fun acc kv =>
      match acc with
      | none => some kv
      | some best => if kv.2.lastAccess < best.2.lastAccess then some kv else acc)
    none

/-- `evictLRU()`.  The guard `if (lruKey)` is a JavaScript truthiness test:
it skips the eviction both when `lruKey` is `null` (empty cache) and when the
least-recently-used key is the empty string `''` (a falsy string). -/
def AdvancedCacheManager.evictLRU (c : AdvancedCacheManager) : AdvancedCacheManager :=
  match lruScan c.cache with
  | none => c
  | some (k, _) =>
      if k = "" then c
      else
        match c.cache.lookup k with
        | none => c
        | some e =>
            { c with
              cache := c.cache.filter (fun kv => kv.1 != k)
              currentSize := c.currentSize - (estimateSize e.data : Int)
              stats := { c.stats with evictions := c.stats.evictions + 1 } }

/-- The `while (this.currentSize + size > this.maxSize && this.cache.size > 0)
evictLRU()` loop of `set`.  `fuel` bounds the number of iterations (the caller
passes the cache size, which suffices because each productive iteration
removes an entry); an iteration in which `evictLRU` removes nothing would
loop forever in JavaScript and is modelled as divergence (`none`). -/
def AdvancedCacheManager.evictLoop :
    Nat → Nat → AdvancedCacheManager → Option AdvancedCacheManager
  | fuel, size, c =>
    if c.currentSize + (size : Int) > (c.maxSize : Int) ∧ 0 < c.cache.length then
      match fuel with
      | 0 => none
      | fuel + 1 =>
          let c' := c.evictLRU
          if c'.cache.length < c.cache.length then
            AdvancedCacheManager.evictLoop fuel size c'
          else none
    else some c

/-- `set(key, data, ttl)` at time `now`: evict while over budget, subtract
the overwritten entry's size if the key is present, store the fresh entry,
add its size.  `none` models the non-terminating eviction loop. -/
def AdvancedCacheManager.set (c : AdvancedCacheManager) (key data : String)
    (ttl now : Int) : Option AdvancedCacheManager :=
  let size := estimateSize data
  match AdvancedCacheManager.evictLoop c.cache.length size c with
  | none => none
  | some c1 =>
      let c2 :=
        match c1.cache.lookup key with
        | some old => { c1 with currentSize := c1.currentSize - (estimateSize old.data : Int) }
        | none => c1
      let entry : CacheEntry :=
        { data := data, timestamp := now, ttl := ttl, accessCount := 0, lastAccess := now }
      some { c2 with
             cache := mapSet c2.cache key entry
             currentSize := c2.currentSize + (size : Int) }

/-- `get(key)` at time `now`: a miss on an absent key; lazy expiry (delete
and subtract the entry size) when `now - timestamp > ttl`; otherwise bump
`accessCount`/`lastAccess` in place and return the payload. -/
def AdvancedCacheManager.get (c : AdvancedCacheManager) (key : String) (now : Int) :
    Option String × AdvancedCacheManager :=
  match c.cache.lookup key with
  | none => (none, { c with stats := { c.stats with misses := c.stats.misses + 1 } })
  | some entry =>
      if now - entry.timestamp > entry.ttl then
        (none,
         { c with
           cache := c.cache.filter (fun kv => kv.1 != key)
           currentSize := c.currentSize - (estimateSize entry.data : Int)
           stats := { c.stats with misses := c.stats.misses + 1 } })
      else
        (some entry.data,
         { c with
           cache := c.cache.map (fun kv =>
             if kv.1 == key then
               (kv.1, { kv.2 with accessCount := kv.2.accessCount + 1, lastAccess := now })
             else kv)
           stats := { c.stats with hits := c.stats.hits + 1 } })

/-- `clear()`. -/
def AdvancedCacheManager.clear (c : AdvancedCacheManager) : AdvancedCacheManager :=
  { c with cache := [], currentSize := 0, stats := { hits := 0, misses := 0, evictions := 0 } }

/-- Total estimated size of the entries physically present in the cache map. -/
def sumSizes (l : List (String × CacheEntry)) : Int :=
  (l.map (fun kv => (estimateSize kv.2.data : Int))).sum

/-- Well-formedness of an `AdvancedCacheManager` state: the underlying map
has no duplicate keys (it is a `Map`) and `currentSize` is exactly the sum of
the estimated sizes of the physically present entries. -/
def AdvancedCacheManager.WF (c : AdvancedCacheManager) : Prop :=
  (c.cache.map Prod.fst).Nodup ∧ c.currentSize = sumSizes c.cache

instance (c : AdvancedCacheManager) : Decidable c.WF := by
  unfold AdvancedCacheManager.WF; infer_instance

/-! ## Retry backoff delays (`src/apiOptimized.js` 244–272)

`retryWithBackoff` keeps a `delay` variable starting at
`API_CONFIG.INITIAL_BACKOFF = 300`; before each retry it draws
`jitter = Math.random() * 0.3 * delay` and sleeps for the updated
`delay = Math.min(delay * 2 + jitter, API_CONFIG.MAX_BACKOFF)` with
`MAX_BACKOFF = 10000`.  Numbers are modelled as rationals and the jitter
draws as an arbitrary sequence `j`; `backoffDelay j 0` is the initial value
and `backoffDelay j (i+1)` the delay slept before retry `i+1`. -/

/-- The sequence of values of the `delay` variable of `retryWithBackoff`,
given the sequence `j` of jitter draws. -/
def backoffDelay (j : ℕ → ℚ) : ℕ → ℚ
  | 0 => 300
  | i + 1 => min (backoffDelay j i * 2 + j i) 10000

/-- The jitter draw `Math.random() * 0.3 * delay` lies in `[0, 0.3 * delay]`
(one endpoint closed in the source; the closed interval used here covers it). -/
def JitterAdmissible (j : ℕ → ℚ) : Prop :=
  ∀ i, 0 ≤ j i ∧ j i ≤ 3 / 10 * backoffDelay j i

/-! ## Trending snapshot diffing (`src/TrendingMoviesModule.jsx` 15–39) -/

/-- The part of the transformed movie DTO the trending diff inspects. -/
structure Movie where
  id : Nat
  title : String
deriving DecidableEq, Repr

/-- A trending API result (`result.results`). -/
structure TrendingResult where
  results : List Movie
deriving DecidableEq, Repr

/-- State of `class TrendingCache`. -/
structure TrendingCache where
  data : Option TrendingResult
  previousData : Option TrendingResult
  lastFetchTime : Option Int
  isUpdating : Bool
deriving DecidableEq, Repr

/-- `new TrendingCache()`. -/
def TrendingCache.init : TrendingCache :=
  { data := none, previousData := none, lastFetchTime := none, isUpdating := false }

/-- `setData(data)` at time `now`: the previous snapshot is replaced
wholesale, retained only as `previousData` until the next refresh. -/
def TrendingCache.setData (c : TrendingCache) (d : TrendingResult) (now : Int) :
    TrendingCache :=
  { c with previousData := c.data, data := some d, lastFetchTime := some now }

/-- `getNewItems()`: the current results whose id does not occur among the
previous snapshot's result ids; `[]` when either snapshot is missing. -/
def TrendingCache.getNewItems (c : TrendingCache) : List Movie :=
  match c.previousData, c.data with
  | some prev, some cur =>
      let previousIds := prev.results.map (fun m => m.id)
      cur.results.filter (fun m => !(previousIds.contains m.id))
  | _, _ => []

/-! ## Prefetch manager (`src/apiOptimized.js` 202–238)

The awaited `fetchMovieDetailsInternal(movieId, ...)` settles with an
explicit `outcome : Except String String` (rejection reason or payload).
`prefetch` returns the new state together with `Except String (Option
String)`: an `Except.error` would model the async function rejecting. -/

/-- State of `class PrefetchManager`: `prefetchQueue` is a `Set` of ids in
flight, `prefetchedData` a `Map` from id to fetched payload. -/
structure PrefetchManager where
  prefetchQueue : List Nat
  prefetchedData : List (Nat × String)
deriving DecidableEq, Repr

/-- `new PrefetchManager()`. -/
def PrefetchManager.empty : PrefetchManager :=
  { prefetchQueue := [], prefetchedData := [] }

/-- `prefetch(movieId, signal)`: return memoized data if present; bail out if
a prefetch for the id is in flight; otherwise enqueue, await the fetch, store
the payload on success, `console.warn` (swallow) on failure, and in all cases
remove the id from the queue in the `finally` block. -/
def PrefetchManager.prefetch (s : PrefetchManager) (movieId : Nat)
    (outcome : Except String String) : PrefetchManager × Except String (Option String) :=
  match s.prefetchedData.lookup movieId with
  | some d => (s, .ok (some d))
  | none =>
      if s.prefetchQueue.contains movieId then (s, .ok none)
      else
        let s1 := { s with prefetchQueue := movieId :: s.prefetchQueue }
        match outcome with
        | .ok data =>
            let s2 := { s1 with prefetchedData := s1.prefetchedData ++ [(movieId, data)] }
            ({ s2 with prefetchQueue := s2.prefetchQueue.erase movieId }, .ok (some data))
        | .error _ =>
            ({ s1 with prefetchQueue := s1.prefetchQueue.erase movieId }, .ok none)

/-- `getPrefetchedData(movieId)`. -/
def PrefetchManager.getPrefetchedData (s : PrefetchManager) (movieId : Nat) :
    Option String :=
  s.prefetchedData.lookup movieId

/-- `clearPrefetch()`. -/
def PrefetchManager.clearPrefetch (_s : PrefetchManager) : PrefetchManager :=
  { prefetchQueue := [], prefetchedData := [] }

/-! ## The module-level API world (`src/apiOptimized.js` 320–327, 426–481, 581–585)

`apiCache` and `generateCacheKey` are imported from `./cacheUtils`, a file of
this repository that is not under `src/`; they are modelled from the spec. -/

/-- Modelled from the spec: the lightweight Cache Engine (`apiCache` from the
missing `cacheUtils.js`) — a key/value store with TTL entries, hit/miss
statistics, and a `clear()` that empties it (§4.1 contract). -/
structure ApiCache where
  entries : List (String × String × Int × Int)
  hits : Nat
  misses : Nat
deriving DecidableEq, Repr

/-- Modelled from the spec: `get(key)` at time `now` — a hit returns the
unexpired value, a miss (absent or expired) counts as a miss. -/
def ApiCache.get (c : ApiCache) (key : String) (now : Int) :
    Option String × ApiCache :=
  match c.entries.lookup key with
  | some (v, createdAt, ttl) =>
      if now - createdAt > ttl then (none, { c with misses := c.misses + 1 })
      else (some v, { c with hits := c.hits + 1 })
  | none => (none, { c with misses := c.misses + 1 })

/-- Modelled from the spec: `clear()` resets the cache. -/
def ApiCache.clear (_c : ApiCache) : ApiCache :=
  { entries := [], hits := 0, misses := 0 }

/-- Modelled from the spec: `generateCacheKey(endpoint, params)` — a
deterministic string built from the endpoint and the parameters. -/
def generateCacheKey (endpoint q : String) (page : Nat) : String :=
  endpoint ++ ":" ++ q ++ ":" ++ toString page

/-- The module-level singletons of `src/apiOptimized.js` (lines 320–327):
`apiCache`, `deduplicator`, `prefetchManager`, `circuitBreaker`. -/
structure World where
  apiCache : ApiCache
  deduplicator : RequestDeduplicator
  prefetchManager : PrefetchManager
  circuitBreaker : CircuitBreaker
deriving DecidableEq, Repr

/-- Outcome of the synchronous phase of `searchMovies`. -/
inductive SearchStep where
  /-- The function resolved directly with
  `{results, totalPages, currentPage}` without network work. -/
  | value (results : List String) (totalPages : Nat) (currentPage : Nat)
  /-- The function resolved with a cached result. -/
  | cachedValue (v : String)
  /-- Network work was issued (or coalesced) under `dedupKey` as promise
  `promiseId`. -/
  | issued (dedupKey : String) (promiseId : Nat)
deriving DecidableEq, Repr

/-- `String.prototype.trim()`: strip leading and trailing whitespace. -/
def jsTrim (s : String) : String :=
  ⟨((s.data.dropWhile Char.isWhitespace).reverse.dropWhile Char.isWhitespace).reverse⟩

/-- `searchMovies(query, {page})` at time `now`, up to the point where work
is handed to `deduplicator.deduplicate`: trim the query and resolve with
`{results: [], totalPages: 0, currentPage: 1}` when it is empty, else consult
`apiCache` and, on a miss, register the deduplicated request. -/
def searchMovies (w : World) (query : String) (page : Nat) (now : Int) :
    SearchStep × World :=
  let q := jsTrim query
  if q = "" then (.value [] 0 1, w)
  else
    let cacheKey := generateCacheKey "search" q page
    match w.apiCache.get cacheKey now with
    | (some v, cache') => (.cachedValue v, { w with apiCache := cache' })
    | (none, cache') =>
        let dedupKey := "search_" ++ q ++ "_" ++ toString page
        let (dedup', p) := w.deduplicator.deduplicate dedupKey
        (.issued dedupKey p, { w with apiCache := cache', deduplicator := dedup' })

/-- `clearAPICache()` (`src/apiOptimized.js` 581–585): `apiCache.clear()`,
`prefetchManager.clearPrefetch()`, `deduplicator.clear()`. -/
def clearAPICache (w : World) : World :=
  { w with
    apiCache := w.apiCache.clear
    prefetchManager := w.prefetchManager.clearPrefetch
    deduplicator := w.deduplicator.clear }

/-! ## List helper lemmas -/

theorem lookup_append {α β : Type} [BEq α] (l₁ l₂ : List (α × β)) (k : α)
    (h : l₁.lookup k = none) : (l₁ ++ l₂).lookup k = l₂.lookup k := by
  induction l₁ with
  | nil => simp
  | cons a l ih =>
      simp only [List.lookup, List.cons_append] at h ⊢
      cases hk : k == a.1 with
      | true => rw [hk] at h; simp at h
      | false => rw [hk] at h; exact ih h

theorem lookup_eq_none_iff {α β : Type} [BEq α] [LawfulBEq α] (l : List (α × β)) (k : α) :
    l.lookup k = none ↔ k ∉ l.map Prod.fst := by
  induction l with
  | nil => simp
  | cons a l ih =>
      simp only [List.lookup, List.map_cons, List.mem_cons]
      cases hk : k == a.1 with
      | true => simp at hk; simp [hk]
      | false => simp at hk; simp [hk, ih]

theorem lookup_filter_ne {α β : Type} [BEq α] [LawfulBEq α] (l : List (α × β)) (k : α) :
    (l.filter (fun kv => kv.1 != k)).lookup k = none := by
  induction l with
  | nil => simp
  | cons a l ih =>
      by_cases h : a.1 = k
      · simp only [List.filter]
        rw [show (a.1 != k) = false by simp [h]]
        exact ih
      · simp only [List.filter]
        rw [show (a.1 != k) = true by simp [h]]
        simp only [List.lookup]
        rw [show (k == a.1) = false by simp [Ne.symm h]]
        exact ih

theorem lookup_isSome_of_mem_keys {α β : Type} [BEq α] [LawfulBEq α]
    (l : List (α × β)) (k : α) (h : k ∈ l.map Prod.fst) :
    ∃ v, l.lookup k = some v := by
  cases hl : l.lookup k with
  | some v => exact ⟨v, rfl⟩
  | none => exact absurd h ((lookup_eq_none_iff l k).mp hl)

/-! ## C1 — request deduplication -/

/-- **C1** Request deduplication: when a pending operation exists for `key`,
`deduplicate` returns the very same pending promise and leaves the state
(including the record of `requestFn` invocations) unchanged; the settlement
callback removes the pending entry for `key` whether the operation succeeded
or failed; and on a state with no pending entry for `key`, `deduplicate`
invokes `requestFn` exactly once, registers the fresh promise under `key`
(so all later concurrent callers receive it), and preserves the at-most-one
pending-entry-per-key invariant. -/
theorem deduplicate_pending_spec
    (s t : RequestDeduplicator) (key : String) (p : Nat) (success : Bool)
    (hpending : s.pendingRequests.lookup key = some p)
    (hfresh : t.pendingRequests.lookup key = none) :
    s.deduplicate key = (s, p)
    ∧ (s.settle key success).pendingRequests.lookup key = none
    ∧ (t.deduplicate key).1.pendingRequests.lookup key = some (t.deduplicate key).2
    ∧ (t.deduplicate key).1.invoked = (t.deduplicate key).2 :: t.invoked
    ∧ ((t.pendingRequests.map Prod.fst).Nodup →
        ((t.deduplicate key).1.pendingRequests.map Prod.fst).Nodup) := by
  refine ⟨?_, ?_, ?_, ?_, ?_⟩
  · simp [RequestDeduplicator.deduplicate, hpending]
  · exact lookup_filter_ne _ _
  · simp only [RequestDeduplicator.deduplicate, hfresh]
    rw [lookup_append _ _ _ hfresh]
    simp [List.lookup]
  · simp [RequestDeduplicator.deduplicate, hfresh]
  · intro hnd
    simp only [RequestDeduplicator.deduplicate, hfresh]
    have hkey : key ∉ t.pendingRequests.map Prod.fst :=
      (lookup_eq_none_iff _ _).mp hfresh
    simp [List.nodup_append, hnd, hkey]

/-- Witness for C1 at a concrete deduplicator state. -/
theorem deduplicate_pending_spec_witness :
    ((⟨[("k", 7)], 8, [7]⟩ : RequestDeduplicator).pendingRequests.lookup "k" = some 7)
    ∧ (RequestDeduplicator.empty.pendingRequests.lookup "k" = none)
    ∧ ((⟨[("k", 7)], 8, [7]⟩ : RequestDeduplicator).deduplicate "k"
        = (⟨[("k", 7)], 8, [7]⟩, 7)
       ∧ ((⟨[("k", 7)], 8, [7]⟩ : RequestDeduplicator).settle "k"
           false).pendingRequests.lookup "k" = none
       ∧ (RequestDeduplicator.empty.deduplicate "k").1.pendingRequests.lookup "k"
           = some (RequestDeduplicator.empty.deduplicate "k").2
       ∧ (RequestDeduplicator.empty.deduplicate "k").1.invoked
           = (RequestDeduplicator.empty.deduplicate "k").2
              :: RequestDeduplicator.empty.invoked
       ∧ ((RequestDeduplicator.empty.pendingRequests.map Prod.fst).Nodup →
           ((RequestDeduplicator.empty.deduplicate
              "k").1.pendingRequests.map Prod.fst).Nodup)) :=
  ⟨by decide, by decide,
   deduplicate_pending_spec ⟨[("k", 7)], 8, [7]⟩ RequestDeduplicator.empty "k" 7 false
     (by decide) (by decide)⟩

/-! ## C3 — circuit breaker transition scenario -/

/-- **C3** Circuit breaker transition scenario: starting from the default
breaker (`Closed`, zero failures, threshold 5, cooldown 60000 ms), five
consecutive `recordFailure` calls (at times `n1 … n5`) leave the breaker
`OPEN` with `nextAttempt = n5 + 60000`; a `canAttempt` call at any `t`
before that moment returns `false` and leaves the state unchanged; a
`canAttempt` call at any `t'` at or after it returns `true` and moves the
state to `HALF_OPEN`; a subsequent `recordSuccess` returns the state to
`CLOSED` with `failureCount = 0`. -/
theorem circuitBreaker_transition_scenario
    (now0 n1 n2 n3 n4 n5 t t' : Int) (s5 : CircuitBreaker)
    (h5 : s5 = (((((CircuitBreaker.init 5 60000 now0).recordFailure n1).recordFailure
        n2).recordFailure n3).recordFailure n4).recordFailure n5)
    (hbefore : t < n5 + 60000) (hafter : n5 + 60000 ≤ t') :
    s5.state = .OPEN ∧ s5.nextAttempt = n5 + 60000 ∧
    s5.canAttempt t = (false, s5) ∧
    (s5.canAttempt t').1 = true ∧ (s5.canAttempt t').2.state = .HALF_OPEN ∧
    (s5.canAttempt t').2.recordSuccess.state = .CLOSED ∧
    (s5.canAttempt t').2.recordSuccess.failureCount = 0 := by
  have h5' : s5 = ⟨5, 5, 60000, .OPEN, n5 + 60000⟩ := by
    subst h5
    simp [CircuitBreaker.init, CircuitBreaker.recordFailure]
  subst h5'
  have hb : ¬ (t ≥ n5 + 60000) := by omega
  have ha : t' ≥ n5 + 60000 := by omega
  refine ⟨rfl, rfl, ?_, ?_, ?_, ?_, ?_⟩ <;>
    simp [CircuitBreaker.canAttempt, CircuitBreaker.recordSuccess, hb, ha]

/-- Witness for C3 with all five failures at time 0, probing at 59999 and
60000. -/
theorem circuitBreaker_transition_scenario_witness :
    ((⟨5, 5, 60000, .OPEN, 60000⟩ : CircuitBreaker)
      = (((((CircuitBreaker.init 5 60000 0).recordFailure 0).recordFailure
          0).recordFailure 0).recordFailure 0).recordFailure 0)
    ∧ ((59999 : Int) < 0 + 60000) ∧ ((0 : Int) + 60000 ≤ 60000)
    ∧ ((⟨5, 5, 60000, .OPEN, 60000⟩ : CircuitBreaker).state = .OPEN
       ∧ (⟨5, 5, 60000, .OPEN, 60000⟩ : CircuitBreaker).nextAttempt = 0 + 60000
       ∧ (⟨5, 5, 60000, .OPEN, 60000⟩ : CircuitBreaker).canAttempt 59999
          = (false, ⟨5, 5, 60000, .OPEN, 60000⟩)
       ∧ ((⟨5, 5, 60000, .OPEN, 60000⟩ : CircuitBreaker).canAttempt 60000).1 = true
       ∧ ((⟨5, 5, 60000, .OPEN, 60000⟩ : CircuitBreaker).canAttempt 60000).2.state
          = .HALF_OPEN
       ∧ ((⟨5, 5, 60000, .OPEN, 60000⟩ :
            CircuitBreaker).canAttempt 60000).2.recordSuccess.state = .CLOSED
       ∧ ((⟨5, 5, 60000, .OPEN, 60000⟩ :
            CircuitBreaker).canAttempt 60000).2.recordSuccess.failureCount = 0) :=
  ⟨by decide, by decide, by decide,
   circuitBreaker_transition_scenario 0 0 0 0 0 0 59999 60000
     ⟨5, 5, 60000, .OPEN, 60000⟩ (by decide) (by decide) (by decide)⟩

/-! ## C4 — half-open probe behavior -/

/-- **C4, counterexample** to "only a single probe attempt is permitted": on
the reachable breaker that just transitioned `OPEN → HALF_OPEN` via
`canAttempt`, a further `canAttempt` call — with no intervening
`recordSuccess` or `recordFailure` — returns `true` again (the source's last
line `return this.state === 'HALF_OPEN'` evaluates to `true`). -/
theorem canAttempt_halfOpen_counterexample :
    (((((((CircuitBreaker.init 5 60000 0).recordFailure 0).recordFailure
        0).recordFailure 0).recordFailure 0).recordFailure 0).canAttempt 60000).1 = true
    ∧ ((((((((CircuitBreaker.init 5 60000 0).recordFailure 0).recordFailure
        0).recordFailure 0).recordFailure 0).recordFailure 0).canAttempt
        60000).2).state = CBState.HALF_OPEN
    ∧ (((((((((CircuitBreaker.init 5 60000 0).recordFailure 0).recordFailure
        0).recordFailure 0).recordFailure 0).recordFailure 0).canAttempt
        60000).2).canAttempt 60000).1 = true
    ∧ (((((((((CircuitBreaker.init 5 60000 0).recordFailure 0).recordFailure
        0).recordFailure 0).recordFailure 0).recordFailure 0).canAttempt
        60000).2).canAttempt 60001).1 = true := by
  decide

/-- **C4, amended**: after `canAttempt` performs the `OPEN → HALF_OPEN`
transition, every further `canAttempt` call while the state remains
`HALF_OPEN` also returns `true` and leaves the breaker unchanged — the code
permits arbitrarily many probe attempts in `HALF_OPEN`, not a single one,
until `recordSuccess` or `recordFailure` moves the state elsewhere. -/
theorem canAttempt_halfOpen_spec (cb : CircuitBreaker) (t : Int)
    (h : cb.state = .HALF_OPEN) :
    cb.canAttempt t = (true, cb) := by
  simp [CircuitBreaker.canAttempt, h]

/-- Witness for the amended C4 on a concrete half-open breaker. -/
theorem canAttempt_halfOpen_spec_witness :
    ((⟨5, 5, 60000, .HALF_OPEN, 60000⟩ : CircuitBreaker).state = .HALF_OPEN)
    ∧ (⟨5, 5, 60000, .HALF_OPEN, 60000⟩ : CircuitBreaker).canAttempt 70000
        = (true, ⟨5, 5, 60000, .HALF_OPEN, 60000⟩) :=
  ⟨rfl, canAttempt_halfOpen_spec ⟨5, 5, 60000, .HALF_OPEN, 60000⟩ 70000 rfl⟩

theorem contains_iff_mem {α : Type} [BEq α] [LawfulBEq α] (l : List α) (a : α) :
    l.contains a = true ↔ a ∈ l := by
  simp [List.contains]

/-! ## C6 — empty-query search -/

/-- **C6** Empty-query search: for every world state, page and time, a
`searchMovies` call whose query trims to the empty string resolves directly
to `{results: [], totalPages: 0, currentPage: 1}` and leaves the whole world
untouched — no cache lookup is recorded, no deduplication entry is created,
and the circuit breaker is not consulted. -/
theorem searchMovies_empty_query (w : World) (query : String) (page : Nat) (now : Int)
    (h : jsTrim query = "") :
    searchMovies w query page now = (.value [] 0 1, w) := by
  simp [searchMovies, h]

/-- Witness for C6 on a whitespace-only query and a concrete world. -/
theorem searchMovies_empty_query_witness :
    (jsTrim " " = "")
    ∧ searchMovies ⟨⟨[], 0, 0⟩, .empty, .empty, .init 5 60000 0⟩ " " 1 0
        = (.value [] 0 1, ⟨⟨[], 0, 0⟩, .empty, .empty, .init 5 60000 0⟩) :=
  ⟨by decide,
   searchMovies_empty_query ⟨⟨[], 0, 0⟩, .empty, .empty, .init 5 60000 0⟩ " " 1 0
     (by decide)⟩

/-! ## C7 — trending diff -/

/-- **C7** Trending diff: `setData` replaces the snapshot wholesale, keeping
the old snapshot exactly as `previousData` until the next refresh; when both
snapshots are present, `getNewItems` returns exactly those current results
whose identifier does not occur among the previous snapshot's result ids;
on the concrete snapshots with ids `[1,2,3]` then `[2,3,4]` the new item ids
are `[4]`. -/
theorem trendingCache_diff_spec
    (c : TrendingCache) (d prev cur : TrendingResult) (now : Int) (m : Movie)
    (hprev : c.previousData = some prev) (hcur : c.data = some cur) :
    (c.setData d now).data = some d
    ∧ (c.setData d now).previousData = c.data
    ∧ (m ∈ c.getNewItems ↔ m ∈ cur.results ∧ m.id ∉ prev.results.map (fun x => x.id))
    ∧ ((TrendingCache.init.setData ⟨[⟨1, "A"⟩, ⟨2, "B"⟩, ⟨3, "C"⟩]⟩ 0).setData
        ⟨[⟨2, "B"⟩, ⟨3, "C"⟩, ⟨4, "D"⟩]⟩ 1).getNewItems.map (fun x => x.id) = [4] := by
  refine ⟨rfl, rfl, ?_, by decide⟩
  simp [TrendingCache.getNewItems, hprev, hcur, List.mem_filter, List.contains]

/-- Witness for C7 at concrete snapshots. -/
theorem trendingCache_diff_spec_witness :
    ((⟨some ⟨[⟨4, "D"⟩]⟩, some ⟨[⟨1, "A"⟩]⟩, some 1, false⟩ :
        TrendingCache).previousData = some ⟨[⟨1, "A"⟩]⟩)
    ∧ ((⟨some ⟨[⟨4, "D"⟩]⟩, some ⟨[⟨1, "A"⟩]⟩, some 1, false⟩ :
        TrendingCache).data = some ⟨[⟨4, "D"⟩]⟩)
    ∧ (((⟨some ⟨[⟨4, "D"⟩]⟩, some ⟨[⟨1, "A"⟩]⟩, some 1, false⟩ :
          TrendingCache).setData ⟨[]⟩ 2).data = some ⟨[]⟩
       ∧ ((⟨some ⟨[⟨4, "D"⟩]⟩, some ⟨[⟨1, "A"⟩]⟩, some 1, false⟩ :
          TrendingCache).setData ⟨[]⟩ 2).previousData
          = (⟨some ⟨[⟨4, "D"⟩]⟩, some ⟨[⟨1, "A"⟩]⟩, some 1, false⟩ :
          TrendingCache).data
       ∧ ((⟨4, "D"⟩ : Movie) ∈ (⟨some ⟨[⟨4, "D"⟩]⟩, some ⟨[⟨1, "A"⟩]⟩, some 1, false⟩ :
            TrendingCache).getNewItems ↔
          (⟨4, "D"⟩ : Movie) ∈ (⟨[⟨4, "D"⟩]⟩ : TrendingResult).results
            ∧ (⟨4, "D"⟩ : Movie).id ∉ (⟨[⟨1, "A"⟩]⟩ :
              TrendingResult).results.map (fun x => x.id))
       ∧ ((TrendingCache.init.setData ⟨[⟨1, "A"⟩, ⟨2, "B"⟩, ⟨3, "C"⟩]⟩ 0).setData
          ⟨[⟨2, "B"⟩, ⟨3, "C"⟩, ⟨4, "D"⟩]⟩ 1).getNewItems.map (fun x => x.id) = [4]) :=
  ⟨rfl, rfl,
   trendingCache_diff_spec ⟨some ⟨[⟨4, "D"⟩]⟩, some ⟨[⟨1, "A"⟩]⟩, some 1, false⟩
     ⟨[]⟩ ⟨[⟨1, "A"⟩]⟩ ⟨[⟨4, "D"⟩]⟩ 2 ⟨4, "D"⟩ rfl rfl⟩

/-! ## C8 — prefetch failure swallowing -/

/-- **C8** Prefetch failure swallowing: a `prefetch` call never rejects — its
result is always an `Except.ok`, whatever the outcome of the underlying
fetch-by-id operation; when no prefetch for the id was already in flight, the
in-flight bookkeeping entry added for the call is gone once the operation has
settled; and when the underlying operation fails, the whole manager state is
exactly as before the call — in particular no result is stored for the id. -/
theorem prefetch_swallow_spec
    (s : PrefetchManager) (movieId : Nat) (outcome : Except String String) :
    (∃ v, (s.prefetch movieId outcome).2 = Except.ok v)
    ∧ (movieId ∉ s.prefetchQueue → movieId ∉ (s.prefetch movieId outcome).1.prefetchQueue)
    ∧ (movieId ∉ s.prefetchQueue → ∀ e, outcome = Except.error e →
        (s.prefetch movieId outcome).1 = s) := by
  unfold PrefetchManager.prefetch
  cases hd : s.prefetchedData.lookup movieId with
  | some d => exact ⟨⟨some d, rfl⟩, fun h => h, fun _ _ _ => rfl⟩
  | none =>
      cases hc : s.prefetchQueue.contains movieId with
      | true =>
          refine ⟨⟨none, rfl⟩, fun h => absurd ((contains_iff_mem _ _).mp hc) h,
            fun h _ _ => rfl⟩
      | false =>
          cases outcome with
          | ok data =>
              refine ⟨⟨some data, by simp [hc]⟩, fun h => ?_, fun _ e he => by cases he⟩
              simp only [hc, Bool.false_eq_true, if_false, List.erase_cons_head]
              exact h
          | error e =>
              refine ⟨⟨none, by simp [hc]⟩, fun h => ?_, fun h e' he => ?_⟩
              · simp only [hc, Bool.false_eq_true, if_false, List.erase_cons_head]
                exact h
              · simp [hc, List.erase_cons_head]

/-- Witness for C8: a failing prefetch on a fresh manager. -/
theorem prefetch_swallow_spec_witness :
    ((0 : Nat) ∉ PrefetchManager.empty.prefetchQueue)
    ∧ (∃ v, (PrefetchManager.empty.prefetch 0 (Except.error "network down")).2
        = Except.ok v)
    ∧ ((0 : Nat) ∉ (PrefetchManager.empty.prefetch 0
        (Except.error "network down")).1.prefetchQueue)
    ∧ (PrefetchManager.empty.prefetch 0 (Except.error "network down")).1
        = PrefetchManager.empty := by
  have h := prefetch_swallow_spec PrefetchManager.empty 0 (Except.error "network down")
  have h0 : (0 : Nat) ∉ PrefetchManager.empty.prefetchQueue := by decide
  exact ⟨h0, h.1, h.2.1 h0, h.2.2 h0 "network down" rfl⟩

/-! ## C9 — clearAll frame condition -/

/-- **C9** `clearAPICache` frame condition: the call empties the API cache,
the deduplicator's pending-request bookkeeping, and the prefetch store (both
the in-flight queue and the stored results), and leaves the circuit breaker —
state and failure count included — exactly unchanged. -/
theorem clearAPICache_frame (w : World) :
    (clearAPICache w).apiCache.entries = []
    ∧ (clearAPICache w).deduplicator.pendingRequests = []
    ∧ (clearAPICache w).prefetchManager.prefetchQueue = []
    ∧ (clearAPICache w).prefetchManager.prefetchedData = []
    ∧ (clearAPICache w).circuitBreaker = w.circuitBreaker := by
  refine ⟨rfl, rfl, rfl, rfl, rfl⟩

/-! ## C5 — backoff monotonicity and bound -/

theorem backoffDelay_nonneg (j : ℕ → ℚ) (hj : ∀ k, 0 ≤ j k) (i : ℕ) :
    0 ≤ backoffDelay j i := by
  induction i with
  | zero => norm_num [backoffDelay]
  | succ n ih =>
      have := hj n
      simp only [backoffDelay]
      exact le_min (by linarith) (by norm_num)

theorem backoffDelay_le_max (j : ℕ → ℚ) (i : ℕ) : backoffDelay j i ≤ 10000 := by
  cases i with
  | zero => norm_num [backoffDelay]
  | succ n => exact min_le_right _ _

/-- **C5** Backoff monotonicity and bound: with `initialDelay = 300` and
`maxDelay = 10000`, for any run of consecutive retryable failures and any
jitter draws in `[0, 0.3 * delay]`, each inter-attempt sleep equals
`min(previousDelay * 2 + jitter, maxDelay)`; consequently the delay sequence
is non-decreasing, each delay is at most `previousDelay * 2 * 1.3`, and each
delay is at most `maxDelay`. -/
theorem backoffDelay_spec (j : ℕ → ℚ) (hj : JitterAdmissible j) (i : ℕ) :
    backoffDelay j (i + 1) = min (backoffDelay j i * 2 + j i) 10000
    ∧ backoffDelay j i ≤ backoffDelay j (i + 1)
    ∧ backoffDelay j (i + 1) ≤ backoffDelay j i * 2 * (13 / 10)
    ∧ backoffDelay j (i + 1) ≤ 10000 := by
  have hj0 : ∀ k, 0 ≤ j k := fun k => (hj k).1
  have hnn := backoffDelay_nonneg j hj0 i
  have hjb := (hj i).2
  have hji := (hj i).1
  have hle := backoffDelay_le_max j i
  refine ⟨rfl, ?_, ?_, min_le_right _ _⟩
  · exact le_min (by linarith) hle
  · calc backoffDelay j (i + 1) ≤ backoffDelay j i * 2 + j i := min_le_left _ _
      _ ≤ backoffDelay j i * 2 * (13 / 10) := by linarith

/-- Witness for C5 with all jitter draws equal to 0, at the first sleep. -/
theorem backoffDelay_spec_witness :
    JitterAdmissible (fun _ => 0)
    ∧ (backoffDelay (fun _ => 0) 1
        = min (backoffDelay (fun _ => 0) 0 * 2 + 0) 10000
       ∧ backoffDelay (fun _ => 0) 0 ≤ backoffDelay (fun _ => 0) 1
       ∧ backoffDelay (fun _ => 0) 1 ≤ backoffDelay (fun _ => 0) 0 * 2 * (13 / 10)
       ∧ backoffDelay (fun _ => 0) 1 ≤ 10000) := by
  have hadm : JitterAdmissible (fun _ => 0) := fun i =>
    ⟨le_refl 0, mul_nonneg (by norm_num)
      (backoffDelay_nonneg (fun _ => 0) (fun _ => le_refl 0) i)⟩
  exact ⟨hadm, backoffDelay_spec (fun _ => 0) hadm 0⟩

/-! ## Lemmas about the byte-bounded LRU cache -/

theorem lookup_mem {α β : Type} [BEq α] [LawfulBEq α] (l : List (α × β)) (k : α)
    (e : β) (h : l.lookup k = some e) : (k, e) ∈ l := by
  induction l with
  | nil => simp at h
  | cons a l ih =>
      simp only [List.lookup] at h
      cases hk : k == a.1 with
      | true =>
          rw [hk] at h
          simp only [Option.some.injEq] at h
          simp at hk
          subst hk h
          exact List.mem_cons_self _ _
      | false =>
          rw [hk] at h
          exact List.mem_cons_of_mem _ (ih h)

theorem lruScan_mem (l : List (String × CacheEntry)) (kv : String × CacheEntry)
    (h : lruScan l = some kv) : kv ∈ l := by
  suffices H : ∀ (l : List (String × CacheEntry)) (acc : Option (String × CacheEntry)),
      l.foldl
        (fun acc kv =>
          match acc with
          | none => some kv
          | some best => if kv.2.lastAccess < best.2.lastAccess then some kv else acc)
        acc = some kv → kv ∈ l ∨ acc = some kv by
    rcases H l none h with hmem | hnone
    · exact hmem
    · simp at hnone
  intro l
  induction l with
  | nil => intro acc h; exact Or.inr h
  | cons a l ih =>
      intro acc h
      rcases ih _ h with hmem | hstep
      · exact Or.inl (List.mem_cons_of_mem _ hmem)
      · cases acc with
        | none =>
            simp only [Option.some.injEq] at hstep
            exact Or.inl (hstep ▸ List.mem_cons_self _ _)
        | some best =>
            have hstep' : (if a.2.lastAccess < best.2.lastAccess then some a
                else some best) = some kv := hstep
            by_cases hlt : a.2.lastAccess < best.2.lastAccess
            · rw [if_pos hlt] at hstep'
              simp only [Option.some.injEq] at hstep'
              exact Or.inl (hstep' ▸ List.mem_cons_self _ _)
            · rw [if_neg hlt] at hstep'
              exact Or.inr hstep'

theorem lruScan_isSome (l : List (String × CacheEntry)) (hne : l ≠ []) :
    ∃ kv, lruScan l = some kv := by
  suffices H : ∀ (l : List (String × CacheEntry)) (kv : String × CacheEntry),
      ∃ kv', l.foldl
        (fun acc kv =>
          match acc with
          | none => some kv
          | some best => if kv.2.lastAccess < best.2.lastAccess then some kv else acc)
        (some kv) = some kv' by
    cases l with
    | nil => exact absurd rfl hne
    | cons a l => exact H l a
  intro l
  induction l with
  | nil => exact fun kv => ⟨kv, rfl⟩
  | cons a l ih =>
      intro kv
      simp only [List.foldl_cons]
      by_cases hlt : a.2.lastAccess < kv.2.lastAccess
      · rw [if_pos hlt]; exact ih a
      · rw [if_neg hlt]; exact ih kv

theorem sumSizes_append (l₁ l₂ : List (String × CacheEntry)) :
    sumSizes (l₁ ++ l₂) = sumSizes l₁ + sumSizes l₂ := by
  simp [sumSizes]

theorem filter_eq_self_of_ne (l : List (String × CacheEntry)) (k : String)
    (h : ∀ kv ∈ l, kv.1 ≠ k) : l.filter (fun kv => kv.1 != k) = l := by
  induction l with
  | nil => rfl
  | cons a l ih =>
      simp only [List.filter]
      rw [show (a.1 != k) = true by simp [h a (List.mem_cons_self _ _)]]
      rw [ih (fun kv hkv => h kv (List.mem_cons_of_mem _ hkv))]

theorem sumSizes_filter (l : List (String × CacheEntry)) (k : String) (e : CacheEntry)
    (hnd : (l.map Prod.fst).Nodup) (hl : l.lookup k = some e) :
    sumSizes (l.filter (fun kv => kv.1 != k))
      = sumSizes l - (estimateSize e.data : Int) := by
  induction l with
  | nil => simp at hl
  | cons a l ih =>
      simp only [List.map_cons, List.nodup_cons] at hnd
      simp only [List.lookup] at hl
      by_cases hk : a.1 = k
      · rw [show (k == a.1) = true by simp [hk]] at hl
        simp only [Option.some.injEq] at hl
        have hrest : ∀ kv ∈ l, kv.1 ≠ k := by
          intro kv hkv hkv1
          apply hnd.1
          rw [hk]
          exact hkv1 ▸ List.mem_map_of_mem Prod.fst hkv
        simp only [List.filter]
        rw [show (a.1 != k) = false by simp [hk]]
        rw [filter_eq_self_of_ne l k hrest, ← hl]
        simp [sumSizes]
      · rw [show (k == a.1) = false by simp [Ne.symm hk]] at hl
        simp only [List.filter]
        rw [show (a.1 != k) = true by simp [hk]]
        have := ih hnd.2 hl
        simp only [sumSizes, List.map_cons, List.sum_cons] at this ⊢
        omega

theorem filter_length_lt (l : List (String × CacheEntry)) (k : String) (e : CacheEntry)
    (hmem : (k, e) ∈ l) :
    (l.filter (fun kv => kv.1 != k)).length < l.length := by
  induction l with
  | nil => simp at hmem
  | cons a l ih =>
      rcases List.mem_cons.mp hmem with heq | htl
      · subst heq
        simp only [List.filter]
        rw [show ((k, e).1 != k) = false by simp]
        exact Nat.lt_succ_of_le (List.length_filter_le _ _)
      · simp only [List.filter]
        cases hp : (a.1 != k) with
        | true => simpa using ih htl
        | false => exact Nat.lt_succ_of_lt (ih htl)

theorem nodup_keys_filter (l : List (String × CacheEntry)) (k : String)
    (hnd : (l.map Prod.fst).Nodup) :
    ((l.filter (fun kv => kv.1 != k)).map Prod.fst).Nodup :=
  hnd.sublist ((List.filter_sublist l).map Prod.fst)

theorem evictLRU_wf (c : AdvancedCacheManager) (hwf : c.WF) : c.evictLRU.WF := by
  unfold AdvancedCacheManager.evictLRU
  split
  · exact hwf
  next k e0 heq =>
    split
    · exact hwf
    · split
      · exact hwf
      next e hl =>
          refine ⟨nodup_keys_filter _ _ hwf.1, ?_⟩
          show c.currentSize - (estimateSize e.data : Int) = _
          rw [sumSizes_filter c.cache k e hwf.1 hl, hwf.2]

theorem evictLRU_step (c : AdvancedCacheManager) (hwf : c.WF)
    (hk : ∀ kv ∈ c.cache, kv.1 ≠ "") (hne : c.cache ≠ []) :
    c.evictLRU.WF ∧ c.evictLRU.cache.length < c.cache.length
    ∧ (∀ kv ∈ c.evictLRU.cache, kv ∈ c.cache) ∧ c.evictLRU.maxSize = c.maxSize := by
  obtain ⟨⟨k0, e0⟩, hs⟩ := lruScan_isSome c.cache hne
  have hmem := lruScan_mem c.cache _ hs
  have hk0 : k0 ≠ "" := hk _ hmem
  obtain ⟨e, hl⟩ :=
    lookup_isSome_of_mem_keys c.cache k0 (List.mem_map_of_mem Prod.fst hmem)
  have hme := lookup_mem c.cache k0 e hl
  have hunfold : c.evictLRU =
      ⟨c.cache.filter (fun kv => kv.1 != k0), c.maxSize,
       c.currentSize - (estimateSize e.data : Int),
       ⟨c.stats.hits, c.stats.misses, c.stats.evictions + 1⟩⟩ := by
    unfold AdvancedCacheManager.evictLRU
    rw [hs]
    dsimp only
    rw [if_neg hk0, hl]
  refine ⟨evictLRU_wf c hwf, ?_, ?_, ?_⟩
  · rw [hunfold]
    exact filter_length_lt c.cache k0 e hme
  · rw [hunfold]
    exact fun kv hkv => List.mem_of_mem_filter hkv
  · rw [hunfold]

theorem evictLoop_spec (fuel size : Nat) :
    ∀ c : AdvancedCacheManager, c.WF → (∀ kv ∈ c.cache, kv.1 ≠ "") →
    c.cache.length ≤ fuel →
    ∃ c1, AdvancedCacheManager.evictLoop fuel size c = some c1 ∧ c1.WF
      ∧ (∀ kv ∈ c1.cache, kv.1 ≠ "") ∧ c1.maxSize = c.maxSize
      ∧ ¬(c1.currentSize + (size : Int) > (c1.maxSize : Int) ∧ 0 < c1.cache.length) := by
  induction fuel with
  | zero =>
      intro c hwf hk hfuel
      have hnil : c.cache = [] := List.length_eq_zero.mp (Nat.le_zero.mp hfuel)
      have hcond : ¬(c.currentSize + (size : Int) > (c.maxSize : Int)
          ∧ 0 < c.cache.length) := by
        rw [hnil]; simp
      refine ⟨c, ?_, hwf, hk, rfl, hcond⟩
      unfold AdvancedCacheManager.evictLoop
      rw [if_neg hcond]
  | succ n ih =>
      intro c hwf hk hfuel
      by_cases hcond : c.currentSize + (size : Int) > (c.maxSize : Int)
          ∧ 0 < c.cache.length
      · have hne : c.cache ≠ [] := by
          intro h
          rw [h] at hcond
          simp at hcond
        obtain ⟨hwf', hlt, hsub, hmax⟩ := evictLRU_step c hwf hk hne
        have hk' : ∀ kv ∈ c.evictLRU.cache, kv.1 ≠ "" :=
          fun kv hkv => hk kv (hsub kv hkv)
        have hfuel' : c.evictLRU.cache.length ≤ n := by omega
        obtain ⟨c1, heq, h1, h2, h3, h4⟩ := ih c.evictLRU hwf' hk' hfuel'
        refine ⟨c1, ?_, h1, h2, by rw [h3, hmax], h4⟩
        unfold AdvancedCacheManager.evictLoop
        rw [if_pos hcond]
        dsimp only
        rw [if_pos hlt]
        exact heq
      · refine ⟨c, ?_, hwf, hk, rfl, hcond⟩
        unfold AdvancedCacheManager.evictLoop
        rw [if_neg hcond]

theorem evictLoop_wf (fuel size : Nat) :
    ∀ c c1 : AdvancedCacheManager,
      AdvancedCacheManager.evictLoop fuel size c = some c1 → c.WF → c1.WF := by
  induction fuel with
  | zero =>
      intro c c1 h hwf
      unfold AdvancedCacheManager.evictLoop at h
      by_cases hcond : c.currentSize + (size : Int) > (c.maxSize : Int)
          ∧ 0 < c.cache.length
      · rw [if_pos hcond] at h
        cases h
      · rw [if_neg hcond] at h
        cases h
        exact hwf
  | succ n ih =>
      intro c c1 h hwf
      unfold AdvancedCacheManager.evictLoop at h
      by_cases hcond : c.currentSize + (size : Int) > (c.maxSize : Int)
          ∧ 0 < c.cache.length
      · rw [if_pos hcond] at h
        dsimp only at h
        by_cases hlt : c.evictLRU.cache.length < c.cache.length
        · rw [if_pos hlt] at h
          exact ih _ _ h (evictLRU_wf c hwf)
        · rw [if_neg hlt] at h
          cases h
      · rw [if_neg hcond] at h
        cases h
        exact hwf

/-! ## C2 — cache eviction bound -/

/-- **C2, counterexample** to the unconditional eviction bound: after
`set("", "aaa", …)` on an empty 10-byte cache, a second
`set("x", "aaa", …)` needs to evict, the least-recently-used key is the
empty string, the falsy guard `if (lruKey)` skips the eviction, and the
`while` loop never terminates — the insert never completes (modelled as
`none`), even though the new value's estimated size 6 is within the bound. -/
theorem set_eviction_bound_counterexample :
    (((AdvancedCacheManager.empty 10).set "" "aaa" 3600000 0).isSome = true)
    ∧ ((AdvancedCacheManager.empty 10).set "" "aaa" 3600000 0).bind
        (fun c1 => c1.set "x" "aaa" 3600000 1) = none
    ∧ (estimateSize "aaa" : Int) ≤ (10 : Nat) := by
  decide

/-- **C2, amended** Cache eviction bound: for every well-formed cache state
whose keys are all non-empty (the empty-string key is never used — otherwise
the falsy `if (lruKey)` guard can make the eviction loop spin forever) and
every value whose estimated size is within `maxSize`, `set` first runs the
eviction loop until `currentSize + estimateSize(value) ≤ maxSize` or the
cache is empty, the insert completes, and afterwards
`currentSize ≤ maxSize`. -/
theorem set_eviction_bound (c : AdvancedCacheManager) (key data : String) (ttl now : Int)
    (hwf : c.WF) (hk : ∀ kv ∈ c.cache, kv.1 ≠ "")
    (hsize : (estimateSize data : Int) ≤ (c.maxSize : Int)) :
    ∃ c1 c',
      AdvancedCacheManager.evictLoop c.cache.length (estimateSize data) c = some c1
      ∧ (c1.currentSize + (estimateSize data : Int) ≤ (c.maxSize : Int) ∨ c1.cache = [])
      ∧ c.set key data ttl now = some c'
      ∧ c'.currentSize ≤ (c.maxSize : Int) := by
  obtain ⟨c1, heq, hwf1, hk1, hmax, hstop⟩ :=
    evictLoop_spec c.cache.length (estimateSize data) c hwf hk le_rfl
  have hdisj : c1.currentSize + (estimateSize data : Int) ≤ (c.maxSize : Int)
      ∨ c1.cache = [] := by
    rcases Nat.eq_zero_or_pos c1.cache.length with hz | hp
    · by_cases hle : c1.currentSize + (estimateSize data : Int) ≤ (c1.maxSize : Int)
      · left
        rw [← hmax]
        exact hle
      · right
        exact List.length_eq_zero.mp hz
    · left
      rw [← hmax]
      by_contra hle
      exact hstop ⟨by omega, hp⟩
  cases hl : c1.cache.lookup key with
  | some old =>
      have hset : c.set key data ttl now = some
          ⟨mapSet c1.cache key ⟨data, now, ttl, 0, now⟩, c1.maxSize,
           c1.currentSize - (estimateSize old.data : Int) + (estimateSize data : Int),
           c1.stats⟩ := by
        simp only [AdvancedCacheManager.set, heq, hl]
      refine ⟨c1, _, heq, hdisj, hset, ?_⟩
      show c1.currentSize - (estimateSize old.data : Int)
          + (estimateSize data : Int) ≤ (c.maxSize : Int)
      rcases hdisj with hb | hnil
      · have h0 : (0 : Int) ≤ (estimateSize old.data : Int) := Int.natCast_nonneg _
        omega
      · rw [hnil] at hl
        simp at hl
  | none =>
      have hset : c.set key data ttl now = some
          ⟨mapSet c1.cache key ⟨data, now, ttl, 0, now⟩, c1.maxSize,
           c1.currentSize + (estimateSize data : Int), c1.stats⟩ := by
        simp only [AdvancedCacheManager.set, heq, hl]
      refine ⟨c1, _, heq, hdisj, hset, ?_⟩
      show c1.currentSize + (estimateSize data : Int) ≤ (c.maxSize : Int)
      rcases hdisj with hb | hnil
      · exact hb
      · have h0 : c1.currentSize = 0 := by
          rw [hwf1.2, hnil]
          rfl
        rw [h0]
        simpa using hsize

/-- Witness for the amended C2 on a concrete one-entry cache. -/
theorem set_eviction_bound_witness :
    (⟨[("k", ⟨"v", 0, 100, 0, 0⟩)], 10, 2, ⟨0, 0, 0⟩⟩ : AdvancedCacheManager).WF
    ∧ (∀ kv ∈ (⟨[("k", ⟨"v", 0, 100, 0, 0⟩)], 10, 2, ⟨0, 0, 0⟩⟩ :
        AdvancedCacheManager).cache, kv.1 ≠ "")
    ∧ (estimateSize "aaa" : Int)
        ≤ ((⟨[("k", ⟨"v", 0, 100, 0, 0⟩)], 10, 2, ⟨0, 0, 0⟩⟩ :
            AdvancedCacheManager).maxSize : Int)
    ∧ (∃ c1 c',
        AdvancedCacheManager.evictLoop
          (⟨[("k", ⟨"v", 0, 100, 0, 0⟩)], 10, 2, ⟨0, 0, 0⟩⟩ :
            AdvancedCacheManager).cache.length (estimateSize "aaa")
          ⟨[("k", ⟨"v", 0, 100, 0, 0⟩)], 10, 2, ⟨0, 0, 0⟩⟩ = some c1
        ∧ (c1.currentSize + (estimateSize "aaa" : Int)
            ≤ ((⟨[("k", ⟨"v", 0, 100, 0, 0⟩)], 10, 2, ⟨0, 0, 0⟩⟩ :
                AdvancedCacheManager).maxSize : Int) ∨ c1.cache = [])
        ∧ (⟨[("k", ⟨"v", 0, 100, 0, 0⟩)], 10, 2, ⟨0, 0, 0⟩⟩ :
            AdvancedCacheManager).set "x" "aaa" 3600000 7 = some c'
        ∧ c'.currentSize ≤ ((⟨[("k", ⟨"v", 0, 100, 0, 0⟩)], 10, 2, ⟨0, 0, 0⟩⟩ :
            AdvancedCacheManager).maxSize : Int)) := by
  refine ⟨by decide, by decide, by decide, ?_⟩
  exact set_eviction_bound ⟨[("k", ⟨"v", 0, 100, 0, 0⟩)], 10, 2, ⟨0, 0, 0⟩⟩
    "x" "aaa" 3600000 7 (by decide) (by decide) (by decide)

/-! ## C10 — size-accounting invariant -/

theorem replace_eq_self (l : List (String × CacheEntry)) (key : String) (e : CacheEntry)
    (h : ∀ kv ∈ l, kv.1 ≠ key) :
    l.map (fun kv => if kv.1 == key then (key, e) else kv) = l := by
  induction l with
  | nil => rfl
  | cons a l ih =>
      simp only [List.map_cons]
      rw [show (a.1 == key) = false by simp [h a (List.mem_cons_self _ _)]]
      rw [ih (fun kv hkv => h kv (List.mem_cons_of_mem _ hkv))]
      simp

theorem map_fst_replace (l : List (String × CacheEntry)) (key : String) (e : CacheEntry) :
    ((l.map (fun kv => if kv.1 == key then (key, e) else kv)).map Prod.fst)
      = l.map Prod.fst := by
  induction l with
  | nil => rfl
  | cons a l ih =>
      simp only [List.map_cons, ih]
      by_cases h : a.1 = key
      · rw [show (if (a.1 == key) = true then (key, e) else a) = (key, e) from by
          simp [h]]
        simp [h]
      · rw [show (if (a.1 == key) = true then (key, e) else a) = a from by simp [h]]

theorem sumSizes_replace (l : List (String × CacheEntry)) (key : String)
    (old e : CacheEntry) (hnd : (l.map Prod.fst).Nodup) (hl : l.lookup key = some old) :
    sumSizes (l.map (fun kv => if kv.1 == key then (key, e) else kv))
      = sumSizes l - (estimateSize old.data : Int) + (estimateSize e.data : Int) := by
  induction l with
  | nil => simp at hl
  | cons a l ih =>
      simp only [List.map_cons, List.nodup_cons] at hnd
      simp only [List.lookup] at hl
      by_cases hk : a.1 = key
      · rw [show (key == a.1) = true by simp [hk]] at hl
        simp only [Option.some.injEq] at hl
        have hrest : ∀ kv ∈ l, kv.1 ≠ key := by
          intro kv hkv hkv1
          apply hnd.1
          rw [hk]
          exact hkv1 ▸ List.mem_map_of_mem Prod.fst hkv
        simp only [List.map_cons]
        rw [show (if (a.1 == key) = true then (key, e) else a) = (key, e) from by
          simp [hk]]
        rw [replace_eq_self l key e hrest, ← hl]
        simp only [sumSizes, List.map_cons, List.sum_cons]
        ring
      · rw [show (key == a.1) = false by simp [Ne.symm hk]] at hl
        simp only [List.map_cons]
        rw [show (if (a.1 == key) = true then (key, e) else a) = a from by simp [hk]]
        have := ih hnd.2 hl
        simp only [sumSizes, List.map_cons, List.sum_cons] at this ⊢
        omega

theorem map_fst_bump (l : List (String × CacheEntry)) (key : String) (now : Int) :
    ((l.map (fun kv => if kv.1 == key then
        (kv.1, { kv.2 with accessCount := kv.2.accessCount + 1, lastAccess := now })
        else kv)).map Prod.fst) = l.map Prod.fst := by
  induction l with
  | nil => rfl
  | cons a l ih =>
      simp only [List.map_cons, ih]
      by_cases h : a.1 = key <;> simp [h]

theorem sumSizes_bump (l : List (String × CacheEntry)) (key : String) (now : Int) :
    sumSizes (l.map (fun kv => if kv.1 == key then
        (kv.1, { kv.2 with accessCount := kv.2.accessCount + 1, lastAccess := now })
        else kv)) = sumSizes l := by
  unfold sumSizes
  rw [List.map_map]
  congr 1
  apply List.map_congr_left
  intro kv _
  by_cases h : kv.1 = key <;> simp [h]

theorem set_wf (c : AdvancedCacheManager) (key data : String) (ttl now : Int)
    (c' : AdvancedCacheManager) (h : c.set key data ttl now = some c') (hwf : c.WF) :
    c'.WF := by
  cases heq : AdvancedCacheManager.evictLoop c.cache.length (estimateSize data) c with
  | none =>
      simp only [AdvancedCacheManager.set, heq] at h
      cases h
  | some c1 =>
      have hwf1 : c1.WF := evictLoop_wf _ _ _ _ heq hwf
      cases hl : c1.cache.lookup key with
      | some old =>
          simp only [AdvancedCacheManager.set, heq, hl, mapSet, Option.isSome_some,
            if_true, Option.some.injEq] at h
          subst h
          refine ⟨?_, ?_⟩
          · show ((c1.cache.map _).map Prod.fst).Nodup
            rw [map_fst_replace]
            exact hwf1.1
          · show c1.currentSize - (estimateSize old.data : Int)
                + (estimateSize data : Int) = _
            rw [sumSizes_replace c1.cache key old ⟨data, now, ttl, 0, now⟩ hwf1.1 hl,
              hwf1.2]
      | none =>
          simp only [AdvancedCacheManager.set, heq, hl, mapSet, Option.isSome_none,
            Bool.false_eq_true, if_false, Option.some.injEq] at h
          subst h
          refine ⟨?_, ?_⟩
          · show ((c1.cache ++ [(key, _)]).map Prod.fst).Nodup
            have hkey : key ∉ c1.cache.map Prod.fst := (lookup_eq_none_iff _ _).mp hl
            simp [List.nodup_append, hwf1.1, hkey]
          · show c1.currentSize + (estimateSize data : Int) = _
            rw [sumSizes_append, hwf1.2]
            simp [sumSizes]

theorem get_wf (c : AdvancedCacheManager) (key : String) (now : Int) (hwf : c.WF) :
    (c.get key now).2.WF := by
  unfold AdvancedCacheManager.get
  cases hl : c.cache.lookup key with
  | none => exact hwf
  | some entry =>
      dsimp only
      by_cases hexp : now - entry.timestamp > entry.ttl
      · rw [if_pos hexp]
        refine ⟨nodup_keys_filter _ _ hwf.1, ?_⟩
        show c.currentSize - (estimateSize entry.data : Int) = _
        rw [sumSizes_filter c.cache key entry hwf.1 hl, hwf.2]
      · rw [if_neg hexp]
        refine ⟨?_, ?_⟩
        · show ((c.cache.map _).map Prod.fst).Nodup
          rw [map_fst_bump]
          exact hwf.1
        · show c.currentSize = _
          rw [sumSizes_bump, hwf.2]

/-- **C10** Size-accounting invariant: on well-formed states (the map has no
duplicate keys and `currentSize` equals the sum of the estimated sizes of the
physically present entries), the invariant is preserved by every completed
`set` (including the overwrite path, which subtracts the old entry's size
before adding the new one), by every `get` (including the lazy-expiry delete
path), by every `evictLRU`, and by `clear`. -/
theorem advancedCache_size_invariant (c c' : AdvancedCacheManager)
    (key data : String) (ttl now : Int) (hwf : c.WF) :
    (c.set key data ttl now = some c' → c'.WF)
    ∧ (c.get key now).2.WF
    ∧ c.evictLRU.WF
    ∧ c.clear.WF := by
  refine ⟨fun h => set_wf c key data ttl now c' h hwf, get_wf c key now hwf,
    evictLRU_wf c hwf, ?_⟩
  exact ⟨by simp [AdvancedCacheManager.clear], by simp [AdvancedCacheManager.clear, sumSizes]⟩

/-- Witness for C10 on a concrete one-entry cache and an overwriting `set`. -/
theorem advancedCache_size_invariant_witness :
    (⟨[("k", ⟨"v", 0, 100, 0, 0⟩)], 10, 2, ⟨0, 0, 0⟩⟩ : AdvancedCacheManager).WF
    ∧ (((⟨[("k", ⟨"v", 0, 100, 0, 0⟩)], 10, 2, ⟨0, 0, 0⟩⟩ :
          AdvancedCacheManager).set "k" "w" 200 5
          = some ⟨[("k", ⟨"w", 5, 200, 0, 5⟩)], 10, 2, ⟨0, 0, 0⟩⟩ →
        (⟨[("k", ⟨"w", 5, 200, 0, 5⟩)], 10, 2, ⟨0, 0, 0⟩⟩ :
          AdvancedCacheManager).WF)
       ∧ ((⟨[("k", ⟨"v", 0, 100, 0, 0⟩)], 10, 2, ⟨0, 0, 0⟩⟩ :
            AdvancedCacheManager).get "k" 5).2.WF
       ∧ (⟨[("k", ⟨"v", 0, 100, 0, 0⟩)], 10, 2, ⟨0, 0, 0⟩⟩ :
            AdvancedCacheManager).evictLRU.WF
       ∧ (⟨[("k", ⟨"v", 0, 100, 0, 0⟩)], 10, 2, ⟨0, 0, 0⟩⟩ :
            AdvancedCacheManager).clear.WF) :=
  ⟨by decide,
   advancedCache_size_invariant ⟨[("k", ⟨"v", 0, 100, 0, 0⟩)], 10, 2, ⟨0, 0, 0⟩⟩
     ⟨[("k", ⟨"w", 5, 200, 0, 5⟩)], 10, 2, ⟨0, 0, 0⟩⟩ "k" "w" 200 5 (by decide)⟩

end ImdbClone
